import Mathlib

/-!
Verification development for the SpecMem core: impact graph traversal,
temporal version store, lifecycle governance, and the aggregate client layer
(`specmem/client/client.py`).  Pure functions of the client layer are embedded
directly from the source; the version store, impact graph and governance
subsystems are only re-exported and called from the available sources, so
their operations are modelled from the specification text (each such
definition says so in its doc comment).
-/

namespace SpecMem

/-- Lifecycle status of a specification block (`SpecStatus` in
`specmem.core.specir`; the `list_specs` docstring enumerates
active, deprecated, legacy, obsolete). -/
inductive SpecStatus where
  | ACTIVE
  | DEPRECATED
  | LEGACY
  | OBSOLETE
deriving DecidableEq, Repr

/-- Type of a specification block (`SpecType` in `specmem.core.specir`;
the kinds named in `get_context_for_change` plus a stand-in for the rest). -/
inductive SpecType where
  | REQUIREMENT
  | DESIGN
  | TASK
  | KNOWLEDGE
  | DECISION
  | OTHER
deriving DecidableEq, Repr

/-- String value of a spec type, as Python's `block.type.value`. -/
def SpecType.value : SpecType → String
  | .REQUIREMENT => "requirement"
  | .DESIGN => "design"
  | .TASK => "task"
  | .KNOWLEDGE => "knowledge"
  | .DECISION => "decision"
  | .OTHER => "other"

/-- A canonical specification block (`SpecBlock` in `specmem.core.specir`),
with the fields the client layer and the property tests use.  The optional
deprecation deadline is kept as block metadata. -/
structure SpecBlock where
  id : String
  type : SpecType := SpecType.REQUIREMENT
  text : String
  source : String := ""
  status : SpecStatus := SpecStatus.ACTIVE
  pinned : Bool := false
  tags : List String := []
  links : List String := []
  deadline : Option Nat := none
deriving DecidableEq, Repr

/-! ## Version store (temporal spec intelligence)

Modelled from the spec: the `SpecDiff` implementation behind
`SpecMemClient.track_spec_version` / `get_spec_diff` / `check_staleness` /
`acknowledge_staleness` / `get_deprecations` is not among the available
sources (only its client-layer callers are), so the operations below follow
the specification's Version Store contract (spec sections 4.3 and 8). -/

/-- Modelled from the spec: one immutable snapshot of a specification.
`version_id` is "a deterministic hash over (spec id, sequence, text)". -/
structure SpecVersion where
  spec_id : String
  sequence : Nat
  version_id : Nat
  text : String
  status : SpecStatus := SpecStatus.ACTIVE
  deadline : Option Nat := none
deriving DecidableEq, Repr

/-- A deterministic string hash (polynomial rolling hash over the
character list). -/
def strHash (s : String) : Nat :=
  s.data.foldl (fun h c => h * 31 + c.toNat) 7

/-- Modelled from the spec: the version id is a deterministic hash over
(spec id, sequence, text); here a pairing of the component hashes. -/
def version_id_of (sid : String) (seq : Nat) (text : String) : Nat :=
  Nat.pair (strHash sid) (Nat.pair seq (strHash text))

/-- The versions recorded for one spec id, oldest first (the store is
append-only, so file order is history order). -/
def getHistory (store : List SpecVersion) (sid : String) : List SpecVersion :=
  store.filter (fun v => decide (v.spec_id = sid))

/-- Modelled from the spec: `sequence = 1 + max(existing sequences for this
spec id, default 0)`. -/
def nextSequence (store : List SpecVersion) (sid : String) : Nat :=
  1 + ((getHistory store sid).map (fun v => v.sequence)).foldl Nat.max 0

/-- Modelled from the spec: `track_version` always appends one immutable
version and never overwrites or reorders prior entries. -/
def track_version (store : List SpecVersion) (block : SpecBlock) :
    List SpecVersion × SpecVersion :=
  let seq := nextSequence store block.id
  let v : SpecVersion :=
    ⟨block.id, seq, version_id_of block.id seq block.text, block.text,
      block.status, block.deadline⟩
  (store ++ [v], v)

/-- Track a list of blocks in order, returning the final store. -/
def track_all (store : List SpecVersion) (blocks : List SpecBlock) :
    List SpecVersion :=
  blocks.foldl (fun st b => (track_version st b).1) store

/-- Latest tracked version of a spec id, if any. -/
def latest_version (store : List SpecVersion) (sid : String) :
    Option SpecVersion :=
  (getHistory store sid).getLast?

/-! ## Diff between two versions -/

/-- One tagged change unit of a spec diff.  A MODIFIED unit carries the
unordered pair of overlapping old/new segments. -/
inductive ChangeUnit where
  | added (line : String)
  | removed (line : String)
  | modified (pair : Sym2 String)
deriving DecidableEq

/-- Modelled from the spec: the delta between two versions of one spec,
an ordered list of change units tagged ADDED/REMOVED/MODIFIED. -/
structure SpecChange where
  spec_id : String
  from_version : Nat
  to_version : Nat
  units : List ChangeUnit
deriving DecidableEq

/-- The ADDED lines of a change. -/
def SpecChange.addedLines (c : SpecChange) : List String :=
  c.units.filterMap (fun u =>
    match u with
    | ChangeUnit.added l => some l
    | _ => none)

/-- The REMOVED lines of a change. -/
def SpecChange.removedLines (c : SpecChange) : List String :=
  c.units.filterMap (fun u =>
    match u with
    | ChangeUnit.removed l => some l
    | _ => none)

/-- The MODIFIED pairs of a change. -/
def SpecChange.modifiedPairs (c : SpecChange) : List (Sym2 String) :=
  c.units.filterMap (fun u =>
    match u with
    | ChangeUnit.modified p => some p
    | _ => none)

/-- Modelled from the spec: two segments "cover overlapping content" when
they share a non-empty token. -/
def overlaps (a b : String) : Bool :=
  (a.splitOn " ").any (fun t => (t != "") && decide (t ∈ b.splitOn " "))

/-- Modelled from the spec: a line diff classifying segments present only in
`toText` as ADDED, only in `fromText` as REMOVED, and remove/add pairs that
cover overlapping content as MODIFIED. -/
def diff_units (fromText toText : String) : List ChangeUnit :=
  let fl := fromText.splitOn "\n"
  let tl := toText.splitOn "\n"
  let removed := fl.filter (fun l => !(tl.contains l))
  let added := tl.filter (fun l => !(fl.contains l))
  let modified := removed.flatMap (fun r =>
    (added.filter (fun a => overlaps r a)).map
      (fun a => ChangeUnit.modified (Sym2.mk (r, a))))
  removed.map ChangeUnit.removed ++ added.map ChangeUnit.added ++ modified

/-- The change record between two concrete versions. -/
def mkSpecChange (sid : String) (vf vt : SpecVersion) : SpecChange :=
  ⟨sid, vf.version_id, vt.version_id, diff_units vf.text vt.text⟩

/-- Modelled from the spec: `get_diff(spec_id, from_version, to_version)`,
defaulting an omitted `from` to the second-to-last version and an omitted
`to` to the latest; absent when fewer than two versions exist. -/
def get_diff (store : List SpecVersion) (sid : String)
    (fromV toV : Option Nat) : Option SpecChange :=
  let hist := getHistory store sid
  if hist.length < 2 then none
  else
    let vf? := match fromV with
      | some f => hist.find? (fun v => decide (v.version_id = f))
      | none => hist.get? (hist.length - 2)
    let vt? := match toV with
      | some t => hist.find? (fun v => decide (v.version_id = t))
      | none => hist.getLast?
    match vf?, vt? with
    | some vf, some vt => some (mkSpecChange sid vf vt)
    | _, _ => none

/-! ## Staleness warnings and acknowledgments -/

/-- Modelled from the spec: a caller's cached version lags current history. -/
structure StalenessWarning where
  spec_id : String
  cached_version : Nat
  current_version : Nat
deriving DecidableEq, Repr

/-- Modelled from the spec: an acknowledgment is scoped to one exact
(spec id, cached version) pair and lapses once a newer version is tracked,
so it records the latest version id at acknowledgment time. -/
structure Acknowledgment where
  spec_id : String
  cached_version : Nat
  current_version : Nat
deriving DecidableEq, Repr

/-- The version store together with its recorded acknowledgments. -/
structure DiffStore where
  versions : List SpecVersion
  acks : List Acknowledgment
deriving DecidableEq, Repr

/-- Look up the caller's cached version id for a spec id. -/
def lookupCached (cached : List (String × Nat)) (sid : String) : Option Nat :=
  (cached.find? (fun p => decide (p.1 = sid))).map (fun p => p.2)

/-- Modelled from the spec: `check_staleness(spec_ids, cached_versions)`
warns when the cached version differs from the current latest version,
unless that exact pairing was acknowledged and no newer version has been
tracked since. -/
def check_staleness (ds : DiffStore) (spec_ids : List String)
    (cached : List (String × Nat)) : List StalenessWarning :=
  spec_ids.filterMap (fun sid => do
    let cv ← lookupCached cached sid
    let latest ← latest_version ds.versions sid
    if latest.version_id ≠ cv ∧
        Acknowledgment.mk sid cv latest.version_id ∉ ds.acks then
      some ⟨sid, cv, latest.version_id⟩
    else none)

/-- Modelled from the spec: `acknowledge_staleness(spec_id, version)` records
that the caller accepted staleness of its cached `version` against the
current latest version. -/
def acknowledge_staleness (ds : DiffStore) (sid : String) (v : Nat) :
    DiffStore × Bool :=
  match latest_version ds.versions sid with
  | none => (ds, false)
  | some latest =>
      (⟨ds.versions, ds.acks ++ [⟨sid, v, latest.version_id⟩]⟩, true)

/-- Tracking a version through the diff store leaves acknowledgments as they
are (an acknowledgment lapses because the latest version moves on). -/
def track_version_ds (ds : DiffStore) (b : SpecBlock) :
    DiffStore × SpecVersion :=
  let r := track_version ds.versions b
  (⟨r.1, ds.acks⟩, r.2)

/-! ## Deprecations -/

/-- Modelled from the spec: a spec in a deprecated lifecycle state with an
urgency ranking. -/
structure Deprecation where
  spec_id : String
  deadline : Option Nat
  urgency : Nat
deriving DecidableEq, Repr

/-- Modelled from the spec: urgency is a monotone combination of inverse
time-to-deadline and the count of impacted nodes. -/
def urgencyScore (now : Nat) (deadline : Option Nat) (impacted : Nat) : Nat :=
  (match deadline with
    | none => 0
    | some dl => if dl ≤ now then 1000 else 1000 / (dl - now)) + impacted

/-- Whether a deadline has already passed at time `now`. -/
def isExpired (now : Nat) (deadline : Option Nat) : Bool :=
  match deadline with
  | none => false
  | some dl => decide (dl < now)

/-- The distinct spec ids present in a store. -/
def specIds (store : List SpecVersion) : List String :=
  (store.map (fun v => v.spec_id)).dedup

/-- Ordering of deprecations by non-increasing urgency. -/
def depGE (a b : Deprecation) : Prop :=
  b.urgency ≤ a.urgency

instance : DecidableRel depGE :=
  fun a b => Nat.decLe b.urgency a.urgency

instance : IsTotal Deprecation depGE :=
  ⟨fun a b => Nat.le_total b.urgency a.urgency⟩

instance : IsTrans Deprecation depGE :=
  ⟨fun _ _ _ h1 h2 => Nat.le_trans h2 h1⟩

/-- Modelled from the spec: `get_deprecations(include_expired)` returns, for
every spec whose latest version is in a deprecated lifecycle state, a
`Deprecation` scored by urgency; entries past their deadline are included
only when `include_expired` is true; the result is ordered by descending
urgency.  `impacted` abstracts the Impact Graph count of impacted nodes. -/
def get_deprecations (store : List SpecVersion) (impacted : String → Nat)
    (now : Nat) (include_expired : Bool) : List Deprecation :=
  let deps := (specIds store).filterMap (fun sid => do
    let v ← latest_version store sid
    if v.status = SpecStatus.DEPRECATED then
      some (Deprecation.mk sid v.deadline (urgencyScore now v.deadline (impacted sid)))
    else none)
  let deps := if include_expired then deps
    else deps.filter (fun d => !(isExpired now d.deadline))
  List.insertionSort depGE deps

/-! ## Impact graph

Modelled from the spec: the `SpecImpactGraph` implementation behind
`SpecMemClient.get_impact_set` is not among the available sources (only the
`specmem.impact` re-export and the client-layer caller are), so the graph
and its bounded-depth undirected traversal follow spec section 4.2. -/

/-- Kind of a graph node. -/
inductive NodeType where
  | SPEC
  | CODE
  | TEST
deriving DecidableEq, Repr

/-- Kind of a graph edge. -/
inductive EdgeType where
  | IMPLEMENTS
  | TESTS
  | REFERENCES
  | SUGGESTED
deriving DecidableEq, Repr

/-- A node of the impact graph: a spec, code file, or test file.  CODE/TEST
nodes carry the file path used for seed matching. -/
structure GraphNode where
  id : String
  kind : NodeType
  path : String := ""
deriving DecidableEq, Repr

/-- A directed, confidence-weighted edge between two nodes (by id). -/
structure GraphEdge where
  source : String
  target : String
  kind : EdgeType
  confidence : Rat := 1
deriving DecidableEq, Repr

/-- The impact graph: flat node and edge collections resolved by id. -/
structure Graph where
  nodes : List GraphNode
  edges : List GraphEdge
deriving DecidableEq, Repr

/-- Result of a traversal: reached nodes partitioned by kind. -/
structure ImpactSet where
  specs : List GraphNode
  code : List GraphNode
  tests : List GraphNode
deriving DecidableEq, Repr

/-- All nodes of an impact set, across the three kind partitions. -/
def ImpactSet.allNodes (s : ImpactSet) : List GraphNode :=
  s.specs ++ s.code ++ s.tests

/-- Modelled from the spec: the neighbors of a node over the undirected view
of the edge set; SUGGESTED edges participate only when `inc` is true. -/
def undirectedNeighbors (g : Graph) (inc : Bool) (nid : String) :
    List String :=
  g.edges.foldr (fun e acc =>
    if e.kind = EdgeType.SUGGESTED ∧ inc = false then acc
    else if e.source = nid then e.target :: acc
    else if e.target = nid then e.source :: acc
    else acc) []

/-- One breadth-first expansion step: keep the ids reached so far and add
every neighbor of one of them. -/
def expandOnce (g : Graph) (inc : Bool) (ids : List String) : List String :=
  ids ++ ids.flatMap (undirectedNeighbors g inc)

/-- Ids of nodes within `depth` hops of the seed ids (`depth = 0` yields only
the seeds themselves). -/
def reachWithin (g : Graph) (inc : Bool) : Nat → List String → List String
  | 0, seeds => seeds
  | d + 1, seeds => expandOnce g inc (reachWithin g inc d seeds)

/-- Modelled from the spec: the seed set is the CODE/TEST nodes whose path
matches an entry in `changed_files`; unmatched paths are ignored. -/
def seedNodes (g : Graph) (changed_files : List String) : List GraphNode :=
  g.nodes.filter (fun n =>
    decide ((n.kind = NodeType.CODE ∨ n.kind = NodeType.TEST) ∧
      n.path ∈ changed_files))

/-- Modelled from the spec: `query_impact(changed_files, depth,
include_suggested)` — breadth-first traversal over the undirected edge view,
bounded to `depth` hops, reached nodes deduplicated (node ids are unique) and
partitioned by kind in the graph's deterministic node order. -/
def query_impact (g : Graph) (changed_files : List String) (depth : Nat)
    (include_suggested : Bool) : ImpactSet :=
  let ids := reachWithin g include_suggested depth
    ((seedNodes g changed_files).map (fun n => n.id))
  let reached := g.nodes.filter (fun n => decide (n.id ∈ ids))
  ⟨reached.filter (fun n => decide (n.kind = NodeType.SPEC)),
    reached.filter (fun n => decide (n.kind = NodeType.CODE)),
    reached.filter (fun n => decide (n.kind = NodeType.TEST))⟩

/-! ## Lifecycle governance and audit

Modelled from the spec: `validate_transition` and the audit log live in
`specmem.vectordb.base`, which is not among the available sources (only the
`specmem.vectordb` re-export is).  The adjacency table itself is an open
product-level contract (spec section 9), so it is an explicit parameter. -/

/-- One accepted lifecycle transition, append-only and never mutated. -/
structure AuditEntry where
  entity_id : String
  from_status : SpecStatus
  to_status : SpecStatus
  timestamp : Nat
deriving DecidableEq, Repr

/-- Modelled from the spec: `validate_transition(from, to)` consults a fixed
adjacency table `valid`; an accepted transition appends exactly one
`AuditEntry` to the log, a rejected one leaves the log untouched and signals
an invalid-transition error. -/
def validate_transition (valid : SpecStatus → SpecStatus → Bool)
    (log : List AuditEntry) (entity : String) (f t : SpecStatus)
    (now : Nat) : Except String AuditEntry × List AuditEntry :=
  if valid f t then
    let e : AuditEntry := ⟨entity, f, t, now⟩
    (Except.ok e, log ++ [e])
  else
    (Except.error "InvalidTransition", log)

/-! ## Aggregate client layer (embedded from `specmem/client/client.py`) -/

/-- `SpecMemClient.get_impacted_specs` (client.py lines 237-280): maps the
impact set's spec nodes back to blocks; when the graph analysis raises, falls
back to the similarity-search collaborator's `relevant` blocks.  The graph
call and the similarity search live in collaborators, so their outcomes are
the `impactResult` and `relevant` parameters. -/
def get_impacted_specs (blocks : List SpecBlock) (files : List String)
    (impactResult : Except String ImpactSet)
    (relevant : List (SpecBlock × Rat)) : List SpecBlock :=
  if files.isEmpty then []
  else
    match impactResult with
    | Except.ok impact_set =>
        let spec_ids := impact_set.specs.map (fun n => n.id.replace "spec:" "")
        blocks.filter (fun b => decide (b.id ∈ spec_ids))
    | Except.error _ => relevant.map (fun p => p.1)

/-- A spec summary as built by `get_context_for_change` (client.py). -/
structure SpecSummary where
  id : String
  type : String
  title : String
  summary : String
  source : String
  relevance : Rat := 0
  pinned : Bool := false
deriving DecidableEq, Repr

/-- `SpecMemClient.DEFAULT_TOKEN_BUDGET`. -/
def DEFAULT_TOKEN_BUDGET : Int := 4000

/-- `SpecMemClient.DEFAULT_TLDR_BUDGET`. -/
def DEFAULT_TLDR_BUDGET : Nat := 500

/-- The context bundle returned by `get_context_for_change`. -/
structure ContextBundle where
  specs : List SpecSummary := []
  designs : List SpecSummary := []
  tests : List String := []
  tldr : String := ""
  total_tokens : Nat := 0
  token_budget : Int := DEFAULT_TOKEN_BUDGET
  changed_files : List String := []
  message : String := ""
deriving DecidableEq, Repr

/-- Helper of `SpecMemClient._extract_title`: scan the stripped lines. -/
def extract_title_lines : List String → String
  | [] => "Untitled"
  | l :: rest =>
    let line := l.trim
    if line.startsWith "#" then (line.dropWhile (fun c => c == '#')).trim
    else if line != "" && !(line.startsWith "-") then
      line.take 50 ++ (if 50 < line.length then "..." else "")
    else extract_title_lines rest

/-- `SpecMemClient._extract_title` (client.py lines 468-477). -/
def extract_title (text : String) : String :=
  extract_title_lines (text.trim.splitOn "\n")

/-- Python's `t.rsplit(" ", 1)[0]`: everything before the last space, or the
whole string when it has no space. -/
def beforeLastSpace (t : String) : String :=
  if t.contains ' ' then (t.dropRightWhile (fun c => c != ' ')).dropRight 1
  else t

/-- `SpecMemClient._truncate_text` (client.py lines 479-483). -/
def truncate_text (text : String) (max_length : Nat) : String :=
  if text.length ≤ max_length then text
  else beforeLastSpace (text.take max_length) ++ "..."

/-- One TL;DR bullet line for a summary (client.py lines 496-498). -/
def tldrLine (s : SpecSummary) : String :=
  let pinned := if s.pinned then "📌 " else ""
  "- " ++ pinned ++ "[" ++ s.type ++ "] " ++ s.title

/-- The truncation loop of `_generate_tldr` (client.py lines 506-510): while
over budget and more than two lines remain, drop the second-to-last line.
`ct` abstracts the collaborator `TokenEstimator.count_tokens`. -/
def generate_tldr_loop (ct : String → Nat) (token_budget : Nat) :
    List String → String
  | lines =>
    let tldr := String.intercalate "\n" lines
    if h : token_budget < ct tldr ∧ 2 < lines.length then
      generate_tldr_loop ct token_budget (lines.eraseIdx (lines.length - 2))
    else tldr
  termination_by lines => lines.length
  decreasing_by
    have h2 := h.2
    have hlt : lines.length - 2 < lines.length := by omega
    rw [List.length_eraseIdx, if_pos hlt]
    exact Nat.sub_one_lt_of_lt h2

/-- `SpecMemClient._generate_tldr` (client.py lines 485-512). -/
def generate_tldr (ct : String → Nat) (summaries : List SpecSummary)
    (token_budget : Nat) : String :=
  if summaries.isEmpty then "No specifications available."
  else
    let lines := ["Key specifications:"] ++ (summaries.take 5).map tldrLine
      ++ (if 5 < summaries.length then
            ["- ...and " ++ toString (summaries.length - 5) ++ " more"]
          else [])
    generate_tldr_loop ct token_budget lines

/-- `SpecMemClient._estimate_bundle_tokens` (client.py lines 514-531). -/
def estimate_bundle_tokens (ct : String → Nat)
    (specs designs : List SpecSummary) (tldr : String) : Nat :=
  let total := ct tldr
  let total := specs.foldl (fun t s => t + ct s.summary + 20) total
  designs.foldl (fun t d => t + ct d.summary + 20) total

/-- Placeholder summary used to read the last element of a list already
known to be non-empty (Python's `lst[-1]`). -/
def defaultSummary : SpecSummary :=
  ⟨"", "", "", "", "", 0, false⟩

/-- The truncation loop of `get_context_for_change` (client.py lines
220-225): while the bundle is over budget and something is left, pop the
last design or the last spec (whichever is less relevant), recomputing the
token estimate each iteration. -/
def truncate_bundle (ct : String → Nat) (tldr : String) (token_budget : Int) :
    List SpecSummary → List SpecSummary →
    List SpecSummary × List SpecSummary
  | specs, designs =>
    if h : token_budget < (estimate_bundle_tokens ct specs designs tldr : Int)
        ∧ (specs ≠ [] ∨ designs ≠ []) then
      if h2 : designs ≠ [] ∧ (specs = [] ∨
          (designs.getLastD defaultSummary).relevance <
            (specs.getLastD defaultSummary).relevance) then
        truncate_bundle ct tldr token_budget specs designs.dropLast
      else if h3 : specs ≠ [] then
        truncate_bundle ct tldr token_budget specs.dropLast designs
      else
        (specs, designs)
    else (specs, designs)
  termination_by specs designs => specs.length + designs.length
  decreasing_by
    · rw [List.length_dropLast]
      have := List.length_pos.mpr h2.1
      omega
    · rw [List.length_dropLast]
      have := List.length_pos.mpr h3
      omega

/-- The categorization step of `get_context_for_change` (client.py lines
192-211): requirement/task/knowledge summaries go to `specs`,
design/decision to `designs`, anything else to `specs`. -/
def categorize (relevant : List (SpecBlock × Rat)) :
    List SpecSummary × List SpecSummary :=
  relevant.foldl (fun acc br =>
    let block := br.1
    let summary : SpecSummary :=
      ⟨block.id, block.type.value, extract_title block.text,
        truncate_text block.text 200, block.source, br.2, block.pinned⟩
    if block.type = SpecType.REQUIREMENT ∨ block.type = SpecType.TASK ∨
        block.type = SpecType.KNOWLEDGE then
      (acc.1 ++ [summary], acc.2)
    else if block.type = SpecType.DESIGN ∨ block.type = SpecType.DECISION then
      (acc.1, acc.2 ++ [summary])
    else
      (acc.1 ++ [summary], acc.2)) ([], [])

/-- `SpecMemClient.get_context_for_change` (client.py lines 159-235).  The
similarity-search collaborator's ranked result is the `relevant_blocks`
parameter and the token estimator is `ct`. -/
def get_context_for_change (ct : String → Nat)
    (relevant_blocks : List (SpecBlock × Rat))
    (changed_files : List String) (token_budget : Int) : ContextBundle :=
  if changed_files.isEmpty then
    { token_budget := token_budget, message := "No changed files provided" }
  else if relevant_blocks.isEmpty then
    { changed_files := changed_files, token_budget := token_budget,
      message := "No related specifications found for the changed files" }
  else
    let cat := categorize relevant_blocks
    let tldr := generate_tldr ct (cat.1 ++ cat.2) DEFAULT_TLDR_BUDGET
    let res := truncate_bundle ct tldr token_budget cat.1 cat.2
    { specs := res.1, designs := res.2, tests := [], tldr := tldr,
      total_tokens := estimate_bundle_tokens ct res.1 res.2 tldr,
      token_budget := token_budget, changed_files := changed_files }

/-! ## Witness fixtures -/

/-- A small concrete block for witnesses. -/
def wBlockA : SpecBlock :=
  ⟨"S1", SpecType.REQUIREMENT, "a", "", SpecStatus.ACTIVE, false, [], [], none⟩

/-- A two-version concrete store for witnesses. -/
def wStore2 : List SpecVersion :=
  [⟨"S1", 1, 10, "x y", SpecStatus.ACTIVE, none⟩,
   ⟨"S1", 2, 20, "x z", SpecStatus.ACTIVE, none⟩]

/-- A one-version concrete store for witnesses. -/
def wStore1 : List SpecVersion :=
  [⟨"S1", 1, 10, "x y", SpecStatus.ACTIVE, none⟩]

/-- A concrete store holding one deprecated spec for witnesses. -/
def wDepStore : List SpecVersion :=
  [⟨"S1", 1, 11, "t", SpecStatus.DEPRECATED, some 20⟩]

/-- A two-node, one-edge concrete graph for witnesses. -/
def wGraph : Graph :=
  ⟨[⟨"code:a.py", NodeType.CODE, "a.py"⟩, ⟨"spec:S1", NodeType.SPEC, ""⟩],
   [⟨"code:a.py", "spec:S1", EdgeType.IMPLEMENTS, 1⟩]⟩

/-- The CODE node of `wGraph`. -/
def wCodeNode : GraphNode := ⟨"code:a.py", NodeType.CODE, "a.py"⟩

/-! ## Version store: append-only history (C1) -/

theorem foldl_max_range (k : Nat) : ∀ a : Nat,
    List.foldl Nat.max a (List.range' (a + 1) k) = a + k := by
  induction k with
  | zero => intro a; simp
  | succ n ih =>
      intro a
      rw [List.range'_succ, List.foldl_cons]
      have h1 : Nat.max a (a + 1) = a + 1 := Nat.max_eq_right (Nat.le_succ a)
      rw [h1]
      have h2 := ih (a + 1)
      omega

theorem getHistory_track (store : List SpecVersion) (b : SpecBlock)
    (sid : String) (hb : b.id = sid) :
    getHistory (track_version store b).1 sid
      = getHistory store sid ++ [(track_version store b).2] := by
  simp [track_version, getHistory, List.filter_append, hb]

theorem nextSequence_of_range (store : List SpecVersion) (sid : String)
    (k : Nat)
    (hinv : (getHistory store sid).map (fun v => v.sequence)
      = List.range' 1 k) :
    nextSequence store sid = k + 1 := by
  unfold nextSequence
  rw [hinv]
  have h : List.foldl Nat.max 0 (List.range' 1 k) = k := by
    simpa using foldl_max_range k 0
  omega

theorem seqs_track_all (sid : String) : ∀ (blocks : List SpecBlock)
    (store : List SpecVersion) (k : Nat),
    (∀ b ∈ blocks, b.id = sid) →
    (getHistory store sid).map (fun v => v.sequence) = List.range' 1 k →
    (getHistory (track_all store blocks) sid).map (fun v => v.sequence)
      = List.range' 1 (k + blocks.length) := by
  intro blocks
  induction blocks with
  | nil => intro store k _ hinv; simpa [track_all] using hinv
  | cons b bs ih =>
      intro store k hall hinv
      have hb : b.id = sid := hall b (List.mem_cons_self b bs)
      have hstep : (getHistory (track_version store b).1 sid).map
          (fun v => v.sequence) = List.range' 1 (k + 1) := by
        rw [getHistory_track store b sid hb, List.map_append, hinv]
        have hseq : (track_version store b).2.sequence
            = nextSequence store b.id := rfl
        have hnext : nextSequence store b.id = k + 1 := by
          rw [hb]; exact nextSequence_of_range store sid k hinv
        have hconcat : List.range' 1 (k + 1) = List.range' 1 k ++ [1 + 1 * k] :=
          List.range'_concat 1 k
        simp [hseq, hnext, hconcat, Nat.add_comm 1 k]
      have hrec := ih (track_version store b).1 (k + 1)
        (fun x hx => hall x (List.mem_cons_of_mem b hx)) hstep
      have : track_all store (b :: bs) = track_all (track_version store b).1 bs := by
        simp [track_all]
      rw [this, hrec]
      simp [Nat.add_comm, Nat.add_assoc, Nat.add_left_comm, List.length_cons]

theorem track_all_extends : ∀ (blocks : List SpecBlock)
    (store : List SpecVersion),
    ∃ rest, track_all store blocks = store ++ rest := by
  intro blocks
  induction blocks with
  | nil => intro store; exact ⟨[], by simp [track_all]⟩
  | cons b bs ih =>
      intro store
      obtain ⟨rest, hrest⟩ := ih (track_version store b).1
      refine ⟨[(track_version store b).2] ++ rest, ?_⟩
      have : track_all store (b :: bs) = track_all (track_version store b).1 bs := by
        simp [track_all]
      rw [this, hrest]
      simp [track_version]

/-- C1: for every spec id, tracking N blocks yields versions whose sequence
numbers are exactly `1..N` with no gaps or repeats; the version id is a pure
deterministic function of (spec id, sequence, text) — identical text at two
different sequences yields different version ids, the same inputs always
derive the same version id — and prior store entries are never overwritten
or reordered (the old store is preserved unchanged as an initial segment). -/
theorem track_version_append_only (sid : String) (blocks : List SpecBlock)
    (store : List SpecVersion)
    (hall : ∀ b ∈ blocks, b.id = sid)
    (hfresh : ∀ v ∈ store, ¬ v.spec_id = sid) :
    ((getHistory (track_all store blocks) sid).map (fun v => v.sequence)
        = List.range' 1 blocks.length)
    ∧ (∃ rest, track_all store blocks = store ++ rest)
    ∧ (∀ s₁ s₂ : List SpecVersion, ∀ b : SpecBlock,
        nextSequence s₁ b.id = nextSequence s₂ b.id →
        ((track_version s₁ b).2).version_id
          = ((track_version s₂ b).2).version_id)
    ∧ (∀ text : String, ∀ n m : Nat, n ≠ m →
        version_id_of sid n text ≠ version_id_of sid m text) := by
  refine ⟨?_, track_all_extends blocks store, ?_, ?_⟩
  · have hempty : (getHistory store sid).map (fun v => v.sequence)
        = List.range' 1 0 := by
      have : getHistory store sid = [] := by
        simp only [getHistory, List.filter_eq_nil_iff, decide_eq_true_eq]
        exact hfresh
      simp [this]
    have := seqs_track_all sid blocks store 0 hall hempty
    simpa using this
  · intro s₁ s₂ b h
    simp only [track_version]
    rw [h]
  · intro text n m hnm heq
    have h1 := (Nat.pair_eq_pair.mp heq).2
    have h2 := (Nat.pair_eq_pair.mp h1).1
    exact hnm h2

theorem track_version_append_only_w :
    ((getHistory (track_all [] [wBlockA, wBlockA]) "S1").map
        (fun v => v.sequence) = List.range' 1 2)
    ∧ version_id_of "S1" 1 "a" ≠ version_id_of "S1" 2 "a" := by
  have h := track_version_append_only "S1" [wBlockA, wBlockA] []
    (by decide) (by decide)
  exact ⟨h.1, h.2.2.2 "a" 1 2 (by decide)⟩

/-! ## Impact graph: depth monotonicity and depth zero (C2, C3) -/

theorem reachWithin_mono (g : Graph) (inc : Bool) (d : Nat)
    (seeds : List String) (x : String)
    (hx : x ∈ reachWithin g inc d seeds) :
    x ∈ reachWithin g inc (d + 1) seeds := by
  show x ∈ expandOnce g inc (reachWithin g inc d seeds)
  exact List.mem_append_left _ hx

/-- C2: for every changed-file set, every traversal depth `d`, and every
suggested-edge setting, each node of `query_impact` at depth `d` is also a
node of `query_impact` at depth `d + 1`. -/
theorem query_impact_depth_mono (g : Graph) (F : List String) (d : Nat)
    (inc : Bool) (n : GraphNode)
    (hn : n ∈ (query_impact g F d inc).allNodes) :
    n ∈ (query_impact g F (d + 1) inc).allNodes := by
  simp only [query_impact, ImpactSet.allNodes, List.mem_append,
    List.mem_filter, decide_eq_true_eq] at hn ⊢
  rcases hn with (⟨⟨hm, hid⟩, hk⟩ | ⟨⟨hm, hid⟩, hk⟩) | ⟨⟨hm, hid⟩, hk⟩
  · exact Or.inl (Or.inl ⟨⟨hm, reachWithin_mono g inc d _ n.id hid⟩, hk⟩)
  · exact Or.inl (Or.inr ⟨⟨hm, reachWithin_mono g inc d _ n.id hid⟩, hk⟩)
  · exact Or.inr ⟨⟨hm, reachWithin_mono g inc d _ n.id hid⟩, hk⟩

theorem query_impact_depth_mono_w :
    wCodeNode ∈ (query_impact wGraph ["a.py"] 1 false).allNodes :=
  query_impact_depth_mono wGraph ["a.py"] 0 false wCodeNode (by decide)

/-- C3: at depth zero, `query_impact` returns exactly the seed nodes — the
CODE/TEST nodes whose path matches an entry of the changed-file set — with
no expansion; paths matching no node simply contribute nothing. -/
theorem query_impact_depth_zero (g : Graph) (F : List String) (inc : Bool)
    (hnodup : (g.nodes.map (fun n => n.id)).Nodup) (n : GraphNode) :
    n ∈ (query_impact g F 0 inc).allNodes ↔
      n ∈ g.nodes ∧ (n.kind = NodeType.CODE ∨ n.kind = NodeType.TEST) ∧
        n.path ∈ F := by
  constructor
  · intro hn
    simp only [query_impact, ImpactSet.allNodes, reachWithin,
      List.mem_append, List.mem_filter, decide_eq_true_eq] at hn
    have hcore : n ∈ g.nodes ∧ n.id ∈ (seedNodes g F).map (fun m => m.id) := by
      rcases hn with (⟨⟨hm, hid⟩, _⟩ | ⟨⟨hm, hid⟩, _⟩) | ⟨⟨hm, hid⟩, _⟩ <;>
        exact ⟨hm, hid⟩
    obtain ⟨hm, hid⟩ := hcore
    obtain ⟨m, hmseed, hmid⟩ := List.mem_map.mp hid
    have hmnodes : m ∈ g.nodes ∧
        ((m.kind = NodeType.CODE ∨ m.kind = NodeType.TEST) ∧ m.path ∈ F) := by
      have := List.mem_filter.mp hmseed
      exact ⟨this.1, of_decide_eq_true this.2⟩
    have heq : m = n := List.inj_on_of_nodup_map hnodup hmnodes.1 hm hmid
    exact ⟨hm, heq ▸ hmnodes.2⟩
  · rintro ⟨hm, hkind, hpath⟩
    have hseed : n ∈ seedNodes g F :=
      List.mem_filter.mpr ⟨hm, decide_eq_true ⟨hkind, hpath⟩⟩
    have hid : n.id ∈ (seedNodes g F).map (fun m => m.id) :=
      List.mem_map.mpr ⟨n, hseed, rfl⟩
    have hreach : n ∈ g.nodes.filter (fun m => decide (m.id ∈
        reachWithin g inc 0 ((seedNodes g F).map (fun m => m.id)))) :=
      List.mem_filter.mpr ⟨hm, decide_eq_true hid⟩
    simp only [query_impact, ImpactSet.allNodes, List.mem_append,
      List.mem_filter, decide_eq_true_eq] at hreach ⊢
    rcases hkind with hc | ht
    · exact Or.inl (Or.inr ⟨hreach, hc⟩)
    · exact Or.inr ⟨hreach, ht⟩

theorem query_impact_depth_zero_w :
    wCodeNode ∈ (query_impact wGraph ["a.py", "nomatch.py"] 0 false).allNodes :=
  (query_impact_depth_zero wGraph ["a.py", "nomatch.py"] false (by decide)
    wCodeNode).mpr (by decide)

/-! ## Governance: transition atomicity (C5) -/

/-- C5: a rejected `validate_transition` call leaves the audit log exactly as
it was (zero entries appended, no other state to touch) and signals an
invalid-transition error; an accepted call appends exactly one `AuditEntry`
to the end of the log. -/
theorem validate_transition_atomic (valid : SpecStatus → SpecStatus → Bool)
    (log : List AuditEntry) (entity : String) (f t : SpecStatus) (now : Nat) :
    (valid f t = false →
      (validate_transition valid log entity f t now).2 = log ∧
      (validate_transition valid log entity f t now).1
        = Except.error "InvalidTransition")
    ∧ (valid f t = true →
      (validate_transition valid log entity f t now).2
        = log ++ [⟨entity, f, t, now⟩] ∧
      (validate_transition valid log entity f t now).1
        = Except.ok ⟨entity, f, t, now⟩) := by
  constructor
  · intro hrej
    simp [validate_transition, hrej]
  · intro hacc
    simp [validate_transition, hacc]

theorem validate_transition_atomic_w :
    ((validate_transition (fun a b => a == SpecStatus.ACTIVE &&
        b == SpecStatus.DEPRECATED) [] "S1" SpecStatus.ACTIVE
        SpecStatus.OBSOLETE 7).2 = [])
    ∧ ((validate_transition (fun a b => a == SpecStatus.ACTIVE &&
        b == SpecStatus.DEPRECATED) [] "S1" SpecStatus.ACTIVE
        SpecStatus.DEPRECATED 7).2
      = [] ++ [⟨"S1", SpecStatus.ACTIVE, SpecStatus.DEPRECATED, 7⟩]) := by
  have h := validate_transition_atomic (fun a b => a == SpecStatus.ACTIVE &&
    b == SpecStatus.DEPRECATED) [] "S1" SpecStatus.ACTIVE
  exact ⟨(h SpecStatus.OBSOLETE 7).1 (by decide) |>.1,
    (h SpecStatus.DEPRECATED 7).2 (by decide) |>.1⟩

/-! ## Diff symmetry (C4) -/

theorem overlaps_iff (a b : String) : overlaps a b = true ↔
    ∃ t ∈ a.splitOn " ", t ≠ "" ∧ t ∈ b.splitOn " " := by
  simp [overlaps, List.any_eq_true, Bool.and_eq_true, bne_iff_ne,
    decide_eq_true_eq]

theorem overlaps_comm (a b : String) : overlaps a b = overlaps b a := by
  rw [Bool.eq_iff_iff, overlaps_iff, overlaps_iff]
  constructor
  · rintro ⟨t, ht1, ht2, ht3⟩; exact ⟨t, ht3, ht2, ht1⟩
  · rintro ⟨t, ht1, ht2, ht3⟩; exact ⟨t, ht3, ht2, ht1⟩

theorem filterMap_added_map_removed (l : List String) :
    (l.map ChangeUnit.removed).filterMap (fun u =>
      match u with
      | ChangeUnit.added s => some s
      | _ => none) = [] := by
  induction l with
  | nil => rfl
  | cons x xs ih => simp [List.filterMap_cons, ih]

theorem filterMap_added_map_added (l : List String) :
    (l.map ChangeUnit.added).filterMap (fun u =>
      match u with
      | ChangeUnit.added s => some s
      | _ => none) = l := by
  induction l with
  | nil => rfl
  | cons x xs ih => simpa [List.filterMap_cons] using ih

theorem filterMap_removed_map_removed (l : List String) :
    (l.map ChangeUnit.removed).filterMap (fun u =>
      match u with
      | ChangeUnit.removed s => some s
      | _ => none) = l := by
  induction l with
  | nil => rfl
  | cons x xs ih => simpa [List.filterMap_cons] using ih

theorem filterMap_removed_map_added (l : List String) :
    (l.map ChangeUnit.added).filterMap (fun u =>
      match u with
      | ChangeUnit.removed s => some s
      | _ => none) = [] := by
  induction l with
  | nil => rfl
  | cons x xs ih => simp [List.filterMap_cons, ih]

theorem filterMap_added_of_modified (l : List ChangeUnit)
    (h : ∀ u ∈ l, ∃ p, u = ChangeUnit.modified p) :
    l.filterMap (fun u =>
      match u with
      | ChangeUnit.added s => some s
      | _ => none) = [] := by
  induction l with
  | nil => rfl
  | cons x xs ih =>
      obtain ⟨p, hp⟩ := h x (List.mem_cons_self x xs)
      subst hp
      simpa [List.filterMap_cons] using
        ih (fun u hu => h u (List.mem_cons_of_mem _ hu))

theorem filterMap_removed_of_modified (l : List ChangeUnit)
    (h : ∀ u ∈ l, ∃ p, u = ChangeUnit.modified p) :
    l.filterMap (fun u =>
      match u with
      | ChangeUnit.removed s => some s
      | _ => none) = [] := by
  induction l with
  | nil => rfl
  | cons x xs ih =>
      obtain ⟨p, hp⟩ := h x (List.mem_cons_self x xs)
      subst hp
      simpa [List.filterMap_cons] using
        ih (fun u hu => h u (List.mem_cons_of_mem _ hu))

theorem modified_units_shape (a b : String) (u : ChangeUnit)
    (hu : u ∈ ((a.splitOn "\n").filter
        (fun l => !((b.splitOn "\n").contains l))).flatMap (fun r =>
      (((b.splitOn "\n").filter
          (fun l => !((a.splitOn "\n").contains l))).filter
        (fun x => overlaps r x)).map
          (fun x => ChangeUnit.modified (Sym2.mk (r, x))))) :
    ∃ p, u = ChangeUnit.modified p := by
  obtain ⟨r, _, hm⟩ := List.mem_flatMap.mp hu
  obtain ⟨x, _, hx⟩ := List.mem_map.mp hm
  exact ⟨Sym2.mk (r, x), hx.symm⟩

theorem addedLines_diff (s : String) (i j : Nat) (a b : String) :
    (SpecChange.mk s i j (diff_units a b)).addedLines
      = (b.splitOn "\n").filter (fun l => !((a.splitOn "\n").contains l)) := by
  show (diff_units a b).filterMap _ = _
  unfold diff_units
  rw [List.filterMap_append, List.filterMap_append,
    filterMap_added_map_removed, filterMap_added_map_added,
    filterMap_added_of_modified _ (modified_units_shape a b)]
  simp

theorem removedLines_diff (s : String) (i j : Nat) (a b : String) :
    (SpecChange.mk s i j (diff_units a b)).removedLines
      = (a.splitOn "\n").filter (fun l => !((b.splitOn "\n").contains l)) := by
  show (diff_units a b).filterMap _ = _
  unfold diff_units
  rw [List.filterMap_append, List.filterMap_append,
    filterMap_removed_map_removed, filterMap_removed_map_added,
    filterMap_removed_of_modified _ (modified_units_shape a b)]
  simp

theorem mem_modifiedPairs_diff (s : String) (i j : Nat) (a b : String)
    (p : Sym2 String) :
    p ∈ (SpecChange.mk s i j (diff_units a b)).modifiedPairs ↔
      ∃ r ∈ (a.splitOn "\n").filter
          (fun l => !((b.splitOn "\n").contains l)),
        ∃ x ∈ (b.splitOn "\n").filter
          (fun l => !((a.splitOn "\n").contains l)),
          overlaps r x = true ∧ p = Sym2.mk (r, x) := by
  constructor
  · intro hp
    obtain ⟨u, hu, hsel⟩ := List.mem_filterMap.mp hp
    have hmod : u = ChangeUnit.modified p := by
      cases u with
      | added l => simp at hsel
      | removed l => simp at hsel
      | modified q => simp_all
    subst hmod
    rw [show diff_units a b = _ from rfl] at hu
    unfold diff_units at hu
    rcases List.mem_append.mp hu with hu1 | hu2
    · rcases List.mem_append.mp hu1 with hr | ha
      · obtain ⟨x, _, hx⟩ := List.mem_map.mp hr
        exact absurd hx (by simp)
      · obtain ⟨x, _, hx⟩ := List.mem_map.mp ha
        exact absurd hx (by simp)
    · obtain ⟨r, hr, hm⟩ := List.mem_flatMap.mp hu2
      obtain ⟨x, hx, hxeq⟩ := List.mem_map.mp hm
      have hpeq : p = Sym2.mk (r, x) := by
        have := hxeq
        simp only [ChangeUnit.modified.injEq] at this
        exact this.symm
      exact ⟨r, hr, x, (List.mem_filter.mp hx).1,
        (List.mem_filter.mp hx).2, hpeq⟩
  · rintro ⟨r, hr, x, hx, hov, rfl⟩
    refine List.mem_filterMap.mpr
      ⟨ChangeUnit.modified (Sym2.mk (r, x)), ?_, rfl⟩
    unfold diff_units
    refine List.mem_append.mpr (Or.inr ?_)
    exact List.mem_flatMap.mpr ⟨r, hr,
      List.mem_map.mpr ⟨x, List.mem_filter.mpr ⟨hx, hov⟩, rfl⟩⟩

/-- C4: for every spec id and every pair of versions in its history, the
ADDED units of `get_diff(id, v1, v2)` equal the REMOVED units of
`get_diff(id, v2, v1)` and vice versa, and the MODIFIED sets of the two
diffs are identical. -/
theorem get_diff_symmetric (store : List SpecVersion) (sid : String)
    (v1 v2 : Nat) (w1 w2 : SpecVersion)
    (h2 : 2 ≤ (getHistory store sid).length)
    (hf1 : (getHistory store sid).find?
      (fun v => decide (v.version_id = v1)) = some w1)
    (hf2 : (getHistory store sid).find?
      (fun v => decide (v.version_id = v2)) = some w2) :
    ∃ c12 c21,
      get_diff store sid (some v1) (some v2) = some c12 ∧
      get_diff store sid (some v2) (some v1) = some c21 ∧
      c12.addedLines = c21.removedLines ∧
      c12.removedLines = c21.addedLines ∧
      (∀ p, p ∈ c12.modifiedPairs ↔ p ∈ c21.modifiedPairs) := by
  have hnot : ¬ (getHistory store sid).length < 2 := by omega
  refine ⟨mkSpecChange sid w1 w2, mkSpecChange sid w2 w1, ?_, ?_, ?_, ?_, ?_⟩
  · simp only [get_diff, if_neg hnot, hf1, hf2]
  · simp only [get_diff, if_neg hnot, hf1, hf2]
  · rw [show mkSpecChange sid w1 w2
        = SpecChange.mk sid w1.version_id w2.version_id
            (diff_units w1.text w2.text) from rfl,
      show mkSpecChange sid w2 w1
        = SpecChange.mk sid w2.version_id w1.version_id
            (diff_units w2.text w1.text) from rfl,
      addedLines_diff, removedLines_diff]
  · rw [show mkSpecChange sid w1 w2
        = SpecChange.mk sid w1.version_id w2.version_id
            (diff_units w1.text w2.text) from rfl,
      show mkSpecChange sid w2 w1
        = SpecChange.mk sid w2.version_id w1.version_id
            (diff_units w2.text w1.text) from rfl,
      removedLines_diff, addedLines_diff]
  · intro p
    rw [show mkSpecChange sid w1 w2
        = SpecChange.mk sid w1.version_id w2.version_id
            (diff_units w1.text w2.text) from rfl,
      show mkSpecChange sid w2 w1
        = SpecChange.mk sid w2.version_id w1.version_id
            (diff_units w2.text w1.text) from rfl,
      mem_modifiedPairs_diff, mem_modifiedPairs_diff]
    constructor
    · rintro ⟨r, hr, x, hx, hov, rfl⟩
      exact ⟨x, hx, r, hr, by rw [← overlaps_comm r x]; exact hov,
        Sym2.eq_swap⟩
    · rintro ⟨r, hr, x, hx, hov, rfl⟩
      exact ⟨x, hx, r, hr, by rw [← overlaps_comm r x]; exact hov,
        Sym2.eq_swap⟩

theorem get_diff_symmetric_w :
    ∃ c12 c21,
      get_diff wStore2 "S1" (some 10) (some 20) = some c12 ∧
      get_diff wStore2 "S1" (some 20) (some 10) = some c21 ∧
      c12.addedLines = c21.removedLines ∧
      c12.removedLines = c21.addedLines ∧
      (∀ p, p ∈ c12.modifiedPairs ↔ p ∈ c21.modifiedPairs) :=
  get_diff_symmetric wStore2 "S1" 10 20
    ⟨"S1", 1, 10, "x y", SpecStatus.ACTIVE, none⟩
    ⟨"S1", 2, 20, "x z", SpecStatus.ACTIVE, none⟩
    (by decide) (by decide) (by decide)

/-! ## Staleness acknowledgment scoping (C6) -/

/-- C6: after `acknowledge_staleness(id, v)`, `check_staleness([id], {id: v})`
returns no warning for that spec id; after a subsequent `track_version` for
that spec produces a version with id different from `v`, the same call with
the old cached version warns again — each acknowledgment is scoped to one
exact (spec id, version id) pairing, not to the spec forever. -/
theorem staleness_ack_scoped (ds : DiffStore) (sid : String) (v : Nat)
    (b : SpecBlock) (hb : b.id = sid) :
    (check_staleness (acknowledge_staleness ds sid v).1 [sid] [(sid, v)] = [])
    ∧ (∀ ds2 v2,
        track_version_ds (acknowledge_staleness ds sid v).1 b = (ds2, v2) →
        v2.version_id ≠ v →
        Acknowledgment.mk sid v v2.version_id ∉ ds2.acks →
        check_staleness ds2 [sid] [(sid, v)]
          = [⟨sid, v, v2.version_id⟩]) := by
  constructor
  · cases hL : latest_version ds.versions sid with
    | none =>
        simp [check_staleness, acknowledge_staleness, hL, lookupCached,
          Option.bind]
    | some latest =>
        simp [check_staleness, acknowledge_staleness, hL, lookupCached,
          Option.bind]
  · intro ds2 v2 htrack hne hnack
    have hd2 : ds2 = (track_version_ds (acknowledge_staleness ds sid v).1 b).1 := by
      rw [htrack]
    have hv2 : v2 = (track_version_ds (acknowledge_staleness ds sid v).1 b).2 := by
      rw [htrack]
    subst hd2
    have hvers : (track_version_ds (acknowledge_staleness ds sid v).1 b).1.versions
        = (acknowledge_staleness ds sid v).1.versions ++ [v2] := by
      rw [hv2]; rfl
    have hsid : v2.spec_id = sid := by rw [hv2, ← hb]; rfl
    have hlatest : latest_version
        (track_version_ds (acknowledge_staleness ds sid v).1 b).1.versions sid
        = some v2 := by
      rw [hvers]
      unfold latest_version getHistory
      rw [List.filter_append]
      have : List.filter (fun w => decide (w.spec_id = sid)) [v2] = [v2] := by
        simp [hsid]
      rw [this, List.getLast?_concat]
    simp [check_staleness, lookupCached, hlatest, Option.bind, hne, hnack]

theorem staleness_ack_scoped_w :
    check_staleness
      (track_version_ds (acknowledge_staleness ⟨[], []⟩ "S1" 999).1 wBlockA).1
      ["S1"] [("S1", 999)]
      = [⟨"S1", 999,
          (track_version_ds (acknowledge_staleness ⟨[], []⟩ "S1" 999).1
            wBlockA).2.version_id⟩] :=
  (staleness_ack_scoped ⟨[], []⟩ "S1" 999 wBlockA rfl).2 _ _ rfl
    (by decide) (by decide)

/-! ## Deprecation ordering (C7) -/

/-- C7: `get_deprecations false` never includes a deprecation whose deadline
has already passed, and for every call the returned list is sorted
non-increasingly by urgency score (`depGE`). -/
theorem get_deprecations_ordering (store : List SpecVersion)
    (impacted : String → Nat) (now : Nat) :
    (∀ d ∈ get_deprecations store impacted now false,
      ∀ dl, d.deadline = some dl → now ≤ dl)
    ∧ (∀ inc : Bool,
        List.Pairwise depGE (get_deprecations store impacted now inc)) := by
  constructor
  · intro d hd dl hdl
    simp only [get_deprecations, Bool.false_eq_true, if_false] at hd
    have hmem := (List.perm_insertionSort depGE _).mem_iff.mp hd
    have hfilter := (List.mem_filter.mp hmem).2
    rw [hdl] at hfilter
    simp only [isExpired, Bool.not_eq_true', decide_eq_false_iff_not,
      Nat.not_lt] at hfilter
    exact hfilter
  · intro inc
    exact List.sorted_insertionSort depGE _

theorem get_deprecations_ordering_w : (10 : Nat) ≤ 20 :=
  (get_deprecations_ordering wDepStore (fun _ => 0) 10).1
    ⟨"S1", some 20, 100⟩ (by decide) 20 rfl

/-! ## Diff needs two versions and defaults to the most recent (C8) -/

/-- C8: `get_diff` is absent whenever fewer than two versions exist for the
spec id, and with both version arguments omitted it diffs the two most
recent versions (second-to-last against last). -/
theorem get_diff_needs_two_versions (store : List SpecVersion)
    (sid : String) :
    (∀ fromV toV, (getHistory store sid).length < 2 →
        get_diff store sid fromV toV = none)
    ∧ (2 ≤ (getHistory store sid).length →
        ∃ vf vt,
          (getHistory store sid).get? ((getHistory store sid).length - 2)
            = some vf
          ∧ (getHistory store sid).getLast? = some vt
          ∧ get_diff store sid none none = some (mkSpecChange sid vf vt)) := by
  constructor
  · intro fromV toV h
    simp [get_diff, h]
  · intro h2
    have hlt : (getHistory store sid).length - 2
        < (getHistory store sid).length := by omega
    have hvf := List.get?_eq_get hlt
    have hne : getHistory store sid ≠ [] := by
      intro hnil
      rw [hnil] at h2
      simp at h2
    obtain ⟨vt, hvt⟩ := Option.isSome_iff_exists.mp
      (List.getLast?_isSome.mpr hne)
    refine ⟨(getHistory store sid).get
      ⟨(getHistory store sid).length - 2, hlt⟩, vt, hvf, hvt, ?_⟩
    have hnot : ¬ (getHistory store sid).length < 2 := by omega
    simp only [get_diff, if_neg hnot, hvf, hvt]

theorem get_diff_needs_two_versions_w :
    (get_diff wStore1 "S1" none none = none)
    ∧ (∃ vf vt,
        (getHistory wStore2 "S1").get? ((getHistory wStore2 "S1").length - 2)
          = some vf
        ∧ (getHistory wStore2 "S1").getLast? = some vt
        ∧ get_diff wStore2 "S1" none none
          = some (mkSpecChange "S1" vf vt)) :=
  ⟨(get_diff_needs_two_versions wStore1 "S1").1 none none (by decide),
   (get_diff_needs_two_versions wStore2 "S1").2 (by decide)⟩

/-! ## Client-layer soft degradation (C9) -/

/-- C9: when the impact-graph traversal fails during `get_impacted_specs`,
the client layer does not propagate the failure: it returns the blocks found
by the similarity-search collaborator instead. -/
theorem get_impacted_specs_fallback (blocks : List SpecBlock)
    (files : List String) (e : String) (relevant : List (SpecBlock × Rat))
    (hfiles : files ≠ []) :
    get_impacted_specs blocks files (Except.error e) relevant
      = relevant.map (fun p => p.1) := by
  simp [get_impacted_specs, hfiles]

theorem get_impacted_specs_fallback_w :
    get_impacted_specs [] ["a.py"] (Except.error "graph failed")
      [(wBlockA, 1)] = [wBlockA] := by
  rw [get_impacted_specs_fallback [] ["a.py"] "graph failed" [(wBlockA, 1)]
    (by decide)]
  rfl

/-! ## Context bundle respects the token budget (C10) -/

theorem truncate_bundle_post (ct : String → Nat) (tldr : String)
    (budget : Int) : ∀ (fuel : Nat) (specs designs : List SpecSummary),
    specs.length + designs.length ≤ fuel →
    ∀ r, truncate_bundle ct tldr budget specs designs = r →
    ((estimate_bundle_tokens ct r.1 r.2 tldr : Int) ≤ budget)
    ∨ (r.1 = [] ∧ r.2 = []) := by
  intro fuel
  induction fuel with
  | zero =>
      intro specs designs hle r hr
      have hs : specs = [] := List.length_eq_zero.mp (by omega)
      have hd : designs = [] := List.length_eq_zero.mp (by omega)
      subst hs
      subst hd
      unfold truncate_bundle at hr
      simp at hr
      subst hr
      exact Or.inr ⟨rfl, rfl⟩
  | succ k ih =>
      intro specs designs hle r hr
      unfold truncate_bundle at hr
      split at hr
      · rename_i h
        split at hr
        · rename_i h2
          refine ih specs designs.dropLast ?_ r hr
          have := List.length_pos.mpr h2.1
          rw [List.length_dropLast]
          omega
        · rename_i h2
          split at hr
          · rename_i h3
            refine ih specs.dropLast designs ?_ r hr
            have := List.length_pos.mpr h3
            rw [List.length_dropLast]
            omega
          · rename_i h3
            exfalso
            have hs : specs = [] := not_ne_iff.mp h3
            have hd : designs ≠ [] := by
              rcases h.2 with hs' | hd'
              · exact absurd hs' h3
              · exact hd'
            exact h2 ⟨hd, Or.inl hs⟩
      · rename_i h
        rw [← hr]
        rcases not_and_or.mp h with hbudget | hnon
        · exact Or.inl (Int.not_lt.mp hbudget)
        · push_neg at hnon
          exact Or.inr hnon

/-- C10: for every changed-file list and token budget, the bundle returned
by `get_context_for_change` either fits the budget (`total_tokens` at most
`token_budget`) or has both its specs and designs lists empty — the
truncation loop only stops early once there is nothing left to drop. -/
theorem get_context_for_change_budget (ct : String → Nat)
    (relevant_blocks : List (SpecBlock × Rat)) (changed_files : List String)
    (token_budget : Int) :
    (((get_context_for_change ct relevant_blocks changed_files
        token_budget).total_tokens : Int) ≤ token_budget)
    ∨ ((get_context_for_change ct relevant_blocks changed_files
          token_budget).specs = []
        ∧ (get_context_for_change ct relevant_blocks changed_files
            token_budget).designs = []) := by
  unfold get_context_for_change
  split
  · exact Or.inr ⟨rfl, rfl⟩
  · split
    · exact Or.inr ⟨rfl, rfl⟩
    · have h := truncate_bundle_post ct
        (generate_tldr ct ((categorize relevant_blocks).1
          ++ (categorize relevant_blocks).2) DEFAULT_TLDR_BUDGET)
        token_budget
        ((categorize relevant_blocks).1.length
          + (categorize relevant_blocks).2.length)
        (categorize relevant_blocks).1 (categorize relevant_blocks).2
        le_rfl _ rfl
      simpa using h

end SpecMem
